import Mathlib

/-!
Shallow embedding of the word-of-wisdom proof-of-work server and client
(`cmd/server/server.go`, `cmd/client/client.go`, `internal/config/config.go`).

Modelling conventions:
* wire strings are Lean `String` (operations are defined on the underlying
  `List Char`, mirroring the Go standard-library functions used);
* a Go `time.Time` carried by the protocol is a `DateTime` record (UTC
  broken-down time with nanoseconds); clock arithmetic (`time.Since`) is done
  on the epoch-nanosecond instant `toEpochNanos`;
* Go `int` is `Int` (no claim exercises 64-bit overflow);
* a Go function that can panic returns `Option`, `none` marking the panic;
* the unbounded loops (`solvePoW`'s search, cancellation via `ctx.Done()`)
  take a fuel argument: running out of fuel models the external cancellation
  signal firing before the loop finishes.
-/

/-- Broken-down UTC time with nanoseconds: the model of the Go `time.Time`
values carried by the protocol. -/
structure DateTime where
  year : Nat
  month : Nat
  day : Nat
  hour : Nat
  minute : Nat
  second : Nat
  nano : Nat
  deriving DecidableEq

/-- Well-formed UTC timestamp: field ranges under which the RFC3339 textual
form is faithful (year printed as four digits, fraction below one second). -/
abbrev validDateTime (t : DateTime) : Prop :=
  t.year ≤ 9999 ∧ 1 ≤ t.month ∧ t.month ≤ 12 ∧ 1 ≤ t.day ∧ t.day ≤ 31 ∧
    t.hour ≤ 23 ∧ t.minute ≤ 59 ∧ t.second ≤ 59 ∧ t.nano < 1000000000

/-- Days from 1970-01-01 of a civil date (Hinnant's `days_from_civil`;
divisions truncate, as in Lean's `Int` division). -/
def daysFromCivil (y m d : Int) : Int :=
  let yy := y - (if m ≤ 2 then 1 else 0)
  let era := (if 0 ≤ yy then yy else yy - 399) / 400
  let yoe := yy - era * 400
  let doy := (153 * (m + (if 2 < m then -3 else 9)) + 2) / 5 + d - 1
  let doe := yoe * 365 + yoe / 4 - yoe / 100 + doy
  era * 146097 + doe - 719468

/-- The instant of a UTC `DateTime` in nanoseconds since the Unix epoch;
`time.Since(t)` at wall-clock instant `now` is `now - toEpochNanos t`. -/
def toEpochNanos (t : DateTime) : Int :=
  ((daysFromCivil t.year t.month t.day * 86400
      + t.hour * 3600 + t.minute * 60 + t.second) * 1000000000) + t.nano

/-- Model of Go `strings.HasPrefix s pre`. -/
def strHasPre (s pre : String) : Bool :=
  pre.data.isPrefixOf s.data

/-- Model of Go `strings.TrimPrefix s pre`: drops `pre` when it is a prefix
of `s`, otherwise returns `s` unchanged. -/
def strTrimPre (s pre : String) : String :=
  if strHasPre s pre then String.mk (s.data.drop pre.data.length) else s

/-- Model of Go `strings.Repeat s count`: Go panics on a negative count,
modelled by `none`. -/
def stringsRepeat (s : String) (count : Int) : Option String :=
  if count < 0 then none
  else some (String.mk (List.flatten (List.replicate count.toNat s.data)))

/-- Splitting a character list at every occurrence of `sep`
(the semantics of Go `strings.Split` with a one-character separator). -/
def splitOnChar (sep : Char) : List Char → List (List Char)
  | [] => [[]]
  | c :: rest =>
      if c = sep then [] :: splitOnChar sep rest
      else
        match splitOnChar sep rest with
        | [] => [[c]]
        | h :: t => (c :: h) :: t

/-- Model of Go `strings.Split(s, ";")`. -/
def splitOnSemi (s : String) : List String :=
  (splitOnChar ';' s.data).map String.mk

/-- The characters Go `strings.TrimSpace` strips (the ASCII white space
set; every string in this protocol is ASCII). -/
def isGoSpace (c : Char) : Bool :=
  c = ' ' || c = '\t' || c = '\n' || c = '\x0b' || c = '\x0c' || c = '\r'

/-- Model of Go `strings.TrimSpace` on the character list. -/
def trimSpaceData (l : List Char) : List Char :=
  ((l.dropWhile isGoSpace).reverse.dropWhile isGoSpace).reverse

/-- Model of Go `strings.TrimSpace`. -/
def trimSpace (s : String) : String :=
  String.mk (trimSpaceData s.data)

/-- Decimal digits of `n`, most significant first, with explicit fuel
(structural recursion; the fuel `n + 1` always suffices). -/
def natReprAux : Nat → Nat → List Char
  | 0, _ => []
  | fuel + 1, n =>
      if n < 10 then [Nat.digitChar n]
      else natReprAux fuel (n / 10) ++ [Nat.digitChar (n % 10)]

/-- Decimal representation of a natural number (Go `%d` / `strconv.Itoa`
on a non-negative value). -/
def natReprData (n : Nat) : List Char := natReprAux (n + 1) n

/-- Decimal representation of a natural number as a string. -/
def natRepr (n : Nat) : String := String.mk (natReprData n)

/-- Decimal representation of a Go `int` (Go `%d` formatting). -/
def intReprData (i : Int) : List Char :=
  if i < 0 then '-' :: natReprData i.natAbs else natReprData i.toNat

/-- Decimal representation of a Go `int` as a string. -/
def intRepr (i : Int) : String := String.mk (intReprData i)

/-- Value of a list of decimal digit characters, most significant first. -/
def digitsToNat (l : List Char) : Nat :=
  l.foldl (fun a c => a * 10 + (c.toNat - 48)) 0

/-- Digits-only parse: `some` exactly when the list is nonempty and all
characters are decimal digits. -/
def parseDigitsOpt (l : List Char) : Option Nat :=
  if l ≠ [] ∧ ∀ c ∈ l, c.isDigit = true then some (digitsToNat l) else none

/-- Model of Go `strconv.Atoi` on the character list: optional sign, then a
nonempty run of decimal digits (overflow is not modelled; no claim
exercises it). -/
def atoiData (l : List Char) : Option Int :=
  match l with
  | [] => none
  | c :: rest =>
      if c = '-' then (parseDigitsOpt rest).map (fun n => -(n : Int))
      else if c = '+' then (parseDigitsOpt rest).map (fun n => (n : Int))
      else (parseDigitsOpt (c :: rest)).map (fun n => (n : Int))

/-- Model of Go `strconv.Atoi`. -/
def atoi (s : String) : Option Int := atoiData s.data

/-- Two-digit zero-padded decimal field. -/
def pad2 (n : Nat) : List Char :=
  [Nat.digitChar (n / 10), Nat.digitChar (n % 10)]

/-- Four-digit zero-padded decimal field. -/
def pad4 (n : Nat) : List Char :=
  [Nat.digitChar (n / 1000), Nat.digitChar (n / 100 % 10),
    Nat.digitChar (n / 10 % 10), Nat.digitChar (n % 10)]

/-- Nine-digit zero-padded decimal field (nanoseconds). -/
def pad9 (n : Nat) : List Char :=
  [Nat.digitChar (n / 100000000), Nat.digitChar (n / 10000000 % 10),
    Nat.digitChar (n / 1000000 % 10), Nat.digitChar (n / 100000 % 10),
    Nat.digitChar (n / 10000 % 10), Nat.digitChar (n / 1000 % 10),
    Nat.digitChar (n / 100 % 10), Nat.digitChar (n / 10 % 10),
    Nat.digitChar (n % 10)]

/-- Drop the trailing '0' characters of a digit run. -/
def stripTrailingZeros (l : List Char) : List Char :=
  (l.reverse.dropWhile (fun c => c == '0')).reverse

/-- The fractional-second field of `time.RFC3339Nano` formatting: omitted
when zero, otherwise a dot and the nanosecond digits with trailing zeros
removed. -/
def fracRepr (nano : Nat) : List Char :=
  if nano = 0 then [] else '.' :: stripTrailingZeros (pad9 nano)

/-- Character list of `t.Format(time.RFC3339Nano)` for a UTC time
(`YYYY-MM-DDTHH:MM:SS[.fraction]Z`). -/
def formatData (t : DateTime) : List Char :=
  pad4 t.year ++ '-' :: (pad2 t.month ++ '-' :: (pad2 t.day ++
    'T' :: (pad2 t.hour ++ ':' :: (pad2 t.minute ++ ':' :: (pad2 t.second ++
      (fracRepr t.nano ++ ['Z']))))))

/-- Model of `t.Format(time.RFC3339Nano)` for a UTC `time.Time`. -/
def formatRFC3339Nano (t : DateTime) : String := String.mk (formatData t)

/-- Consume one expected character. -/
def expectCh (c : Char) : List Char → Option (List Char)
  | x :: rest => if x = c then some rest else none
  | [] => none

/-- Consume a two-digit decimal field. -/
def parse2 : List Char → Option (Nat × List Char)
  | c1 :: c2 :: rest =>
      if c1.isDigit && c2.isDigit then
        some ((c1.toNat - 48) * 10 + (c2.toNat - 48), rest)
      else none
  | _ => none

/-- Consume a four-digit decimal field. -/
def parse4 : List Char → Option (Nat × List Char)
  | c1 :: c2 :: c3 :: c4 :: rest =>
      if c1.isDigit && c2.isDigit && c3.isDigit && c4.isDigit then
        some ((c1.toNat - 48) * 1000 + (c2.toNat - 48) * 100 +
          (c3.toNat - 48) * 10 + (c4.toNat - 48), rest)
      else none
  | _ => none

/-- Consume an optional fractional-second field: a dot followed by one to
nine digits yields that many nanosecond digits (scaled to nine places);
anything else yields zero nanoseconds and consumes nothing. -/
def parseFracPart (l : List Char) : Option (Nat × List Char) :=
  match l with
  | [] => some (0, [])
  | c :: rest =>
      if c = '.' then
        let ds := rest.takeWhile Char.isDigit
        if ds.length = 0 then none
        else if 9 < ds.length then none
        else some (digitsToNat ds * 10 ^ (9 - ds.length),
          rest.dropWhile Char.isDigit)
      else some (0, c :: rest)

/-- Parse of an RFC3339(±nanosecond) UTC timestamp, the acceptance used by
`time.Parse(time.RFC3339Nano, ·)` on the `Z`-suffixed texts this protocol
exchanges; field ranges are validated as Go does. -/
def parseRFC3339Data (l : List Char) : Option DateTime :=
  match parse4 l with
  | none => none
  | some (y, l) =>
  match expectCh '-' l with
  | none => none
  | some l =>
  match parse2 l with
  | none => none
  | some (mo, l) =>
  match expectCh '-' l with
  | none => none
  | some l =>
  match parse2 l with
  | none => none
  | some (d, l) =>
  match expectCh 'T' l with
  | none => none
  | some l =>
  match parse2 l with
  | none => none
  | some (h, l) =>
  match expectCh ':' l with
  | none => none
  | some l =>
  match parse2 l with
  | none => none
  | some (mi, l) =>
  match expectCh ':' l with
  | none => none
  | some l =>
  match parse2 l with
  | none => none
  | some (s, l) =>
  match parseFracPart l with
  | none => none
  | some (ns, l) =>
  match expectCh 'Z' l with
  | none => none
  | some l =>
  match l with
  | [] =>
      if 1 ≤ mo ∧ mo ≤ 12 ∧ 1 ≤ d ∧ d ≤ 31 ∧ h ≤ 23 ∧ mi ≤ 59 ∧ s ≤ 59 then
        some ⟨y, mo, d, h, mi, s, ns⟩
      else none
  | _ => none

/-- Model of `time.Parse(time.RFC3339Nano, s)` on the texts this protocol
exchanges. -/
def parseRFC3339Nano (s : String) : Option DateTime :=
  parseRFC3339Data s.data

/-! ## SHA-256 (`crypto/sha256` + `encoding/hex`)

A full translation of SHA-256 over byte lists (bytes and 32-bit words are
`Nat` values kept below `2 ^ 32` with explicit reductions).  The claims never
depend on particular digest values, only on the digest being some 64-character
lowercase-hex string, but the function is embedded in full so that
`compute(challenge, nonce, timestamp)` is the real construction. -/

/-- Reduce to a 32-bit word. -/
def w32 (x : Nat) : Nat := x % 4294967296

/-- 32-bit right rotation. -/
def rotr32 (x n : Nat) : Nat := w32 (x / 2 ^ n + x % 2 ^ n * 2 ^ (32 - n))

/-- 32-bit logical right shift. -/
def shr32 (x n : Nat) : Nat := x / 2 ^ n

/-- SHA-256 big sigma 0. -/
def bsig0 (x : Nat) : Nat := rotr32 x 2 ^^^ rotr32 x 13 ^^^ rotr32 x 22

/-- SHA-256 big sigma 1. -/
def bsig1 (x : Nat) : Nat := rotr32 x 6 ^^^ rotr32 x 11 ^^^ rotr32 x 25

/-- SHA-256 small sigma 0. -/
def ssig0 (x : Nat) : Nat := rotr32 x 7 ^^^ rotr32 x 18 ^^^ shr32 x 3

/-- SHA-256 small sigma 1. -/
def ssig1 (x : Nat) : Nat := rotr32 x 17 ^^^ rotr32 x 19 ^^^ shr32 x 10

/-- SHA-256 choice function. -/
def chFn (x y z : Nat) : Nat := (x &&& y) ^^^ ((x ^^^ 4294967295) &&& z)

/-- SHA-256 majority function. -/
def majFn (x y z : Nat) : Nat := (x &&& y) ^^^ (x &&& z) ^^^ (y &&& z)

/-- The SHA-256 round constants. -/
def sha256K : List Nat :=
  [1116352408, 1899447441, 3049323471, 3921009573,
   961987163, 1508970993, 2453635748, 2870763221,
   3624381080, 310598401, 607225278, 1426881987,
   1925078388, 2162078206, 2614888103, 3248222580,
   3835390401, 4022224774, 264347078, 604807628,
   770255983, 1249150122, 1555081692, 1996064986,
   2554220882, 2821834349, 2952996808, 3210313671,
   3336571891, 3584528711, 113926993, 338241895,
   666307205, 773529912, 1294757372, 1396182291,
   1695183700, 1986661051, 2177026350, 2456956037,
   2730485921, 2820302411, 3259730800, 3345764771,
   3516065817, 3600352804, 4094571909, 275423344,
   430227734, 506948616, 659060556, 883997877,
   958139571, 1322822218, 1537002063, 1747873779,
   1955562222, 2024104815, 2227730452, 2361852424,
   2428436474, 2756734187, 3204031479, 3329325298]

/-- The eight SHA-256 chaining words. -/
structure Sha256St where
  h0 : Nat
  h1 : Nat
  h2 : Nat
  h3 : Nat
  h4 : Nat
  h5 : Nat
  h6 : Nat
  h7 : Nat

/-- The SHA-256 initial hash value. -/
def sha256Init : Sha256St :=
  ⟨1779033703, 3144134277, 1013904242, 2773480762,
    1359893119, 2600822924, 528734635, 1541459225⟩

/-- Group bytes into big-endian 32-bit words. -/
def bytesToWordsBE : List Nat → List Nat
  | b0 :: b1 :: b2 :: b3 :: rest =>
      (b0 * 16777216 + b1 * 65536 + b2 * 256 + b3) :: bytesToWordsBE rest
  | _ => []

/-- Extend the 16-word block to the 64-word message schedule (`n` words
still to append). -/
def extendScheduleAux : Nat → List Nat → List Nat
  | 0, w => w
  | n + 1, w =>
      extendScheduleAux n (w ++ [w32 (ssig1 (w.getD (w.length - 2) 0)
        + w.getD (w.length - 7) 0 + ssig0 (w.getD (w.length - 15) 0)
        + w.getD (w.length - 16) 0)])

/-- One SHA-256 round on the working variables, fed a schedule word and a
round constant. -/
def roundStep (st : Sha256St) (wk : Nat × Nat) : Sha256St :=
  let t1 := w32 (st.h7 + bsig1 st.h4 + chFn st.h4 st.h5 st.h6 + wk.2 + wk.1)
  let t2 := w32 (bsig0 st.h0 + majFn st.h0 st.h1 st.h2)
  ⟨w32 (t1 + t2), st.h0, st.h1, st.h2, w32 (st.h3 + t1), st.h4, st.h5, st.h6⟩

/-- Compress one 64-byte block into the chaining state. -/
def sha256Compress (st : Sha256St) (block : List Nat) : Sha256St :=
  let ws := extendScheduleAux 48 (bytesToWordsBE block)
  let v := (List.zip ws sha256K).foldl roundStep st
  ⟨w32 (st.h0 + v.h0), w32 (st.h1 + v.h1), w32 (st.h2 + v.h2),
    w32 (st.h3 + v.h3), w32 (st.h4 + v.h4), w32 (st.h5 + v.h5),
    w32 (st.h6 + v.h6), w32 (st.h7 + v.h7)⟩

/-- Big-endian byte `i` (from the low end) of a value. -/
def byteOfBE (v i : Nat) : Nat := v / 2 ^ (8 * i) % 256

/-- The 64-bit big-endian length field of SHA-256 padding. -/
def lenBytes64 (bits : Nat) : List Nat :=
  [byteOfBE bits 7, byteOfBE bits 6, byteOfBE bits 5, byteOfBE bits 4,
    byteOfBE bits 3, byteOfBE bits 2, byteOfBE bits 1, byteOfBE bits 0]

/-- SHA-256 message padding: `0x80`, zeros to 56 mod 64, then the bit
length. -/
def padMessage (msg : List Nat) : List Nat :=
  msg ++ 128 :: (List.replicate ((119 - msg.length % 64) % 64) 0
    ++ lenBytes64 (8 * msg.length))

/-- Cut a byte list into 64-byte blocks (fuel-driven; the fuel passed by
`sha256Bytes` always suffices). -/
def chunks64Aux : Nat → List Nat → List (List Nat)
  | 0, _ => []
  | f + 1, l =>
      if l.isEmpty then [] else l.take 64 :: chunks64Aux f (l.drop 64)

/-- Big-endian bytes of a 32-bit word. -/
def wordBytesBE (w : Nat) : List Nat :=
  [byteOfBE w 3, byteOfBE w 2, byteOfBE w 1, byteOfBE w 0]

/-- The 32-byte SHA-256 digest of a byte list. -/
def sha256Bytes (msg : List Nat) : List Nat :=
  let st := (chunks64Aux (msg.length + 73) (padMessage msg)).foldl
    sha256Compress sha256Init
  wordBytesBE st.h0 ++ wordBytesBE st.h1 ++ wordBytesBE st.h2 ++
    wordBytesBE st.h3 ++ wordBytesBE st.h4 ++ wordBytesBE st.h5 ++
    wordBytesBE st.h6 ++ wordBytesBE st.h7

/-- UTF-8 encoding of one character. -/
def charUtf8 (c : Char) : List Nat :=
  let n := c.toNat
  if n < 128 then [n]
  else if n < 2048 then [192 + n / 64, 128 + n % 64]
  else if n < 65536 then [224 + n / 4096, 128 + n / 64 % 64, 128 + n % 64]
  else [240 + n / 262144, 128 + n / 4096 % 64, 128 + n / 64 % 64,
    128 + n % 64]

/-- The UTF-8 bytes of a string (Go `[]byte(s)`). -/
def utf8Bytes (s : String) : List Nat := s.data.flatMap charUtf8

/-- Lowercase hexadecimal characters of one byte (`encoding/hex`). -/
def byteHexChars (b : Nat) : List Char :=
  [Nat.digitChar (b / 16 % 16), Nat.digitChar (b % 16)]

/-- The PoW digest primitive shared verbatim by server and client:
`hex.EncodeToString(sha256.Sum256([]byte(s)))`, a 64-character lowercase-hex
string. -/
def sha256Hex (s : String) : String :=
  String.mk (List.flatten ((sha256Bytes (utf8Bytes s)).map byteHexChars))

/-! ## Server (`cmd/server/server.go`) -/

/-- `maxDifficultyClientCount` (server.go line 22). -/
def maxDifficultyClientCount : Int := 50

/-- `minDifficultyClientCount` (server.go line 23). -/
def minDifficultyClientCount : Int := 20

/-- `adjustDifficulty` (server.go lines 168-179): the load-adaptive
difficulty policy, a pure function of the client-load counter and the two
configured bounds. -/
def adjustDifficulty (clientLoad minDifficulty maxDifficulty : Int) : Int :=
  if maxDifficultyClientCount < clientLoad then maxDifficulty
  else if minDifficultyClientCount < clientLoad then maxDifficulty - 1
  else minDifficulty

/-- The character list of the challenge frame `sendChallenge` writes
(server.go lines 194-201):
`Challenge:<token>;Timestamp:<RFC3339Nano>;Difficulty:<int>\n`. -/
def sendChallengeData (challenge : String) (timestamp : DateTime)
    (difficulty : Int) : List Char :=
  "Challenge:".data ++ challenge.data ++ [';'] ++ "Timestamp:".data ++
    formatData timestamp ++ [';'] ++ "Difficulty:".data ++
    intReprData difficulty ++ ['\n']

/-- The challenge frame `sendChallenge` writes, as a string. -/
def sendChallengeMessage (challenge : String) (timestamp : DateTime)
    (difficulty : Int) : String :=
  String.mk (sendChallengeData challenge timestamp difficulty)

/-- `parseResponse` (server.go lines 221-235): split on `;`, require exactly
two fields, trim the `Nonce:` and `Timestamp:` labels (`strings.TrimPrefix`
leaves the field unchanged when the label is absent), parse the timestamp. -/
def parseResponse (response : String) : Except String (String × DateTime) :=
  match splitOnSemi response with
  | [p1, p2] =>
      let nonce := strTrimPre p1 "Nonce:"
      let timestampStr := strTrimPre p2 "Timestamp:"
      match parseRFC3339Nano timestampStr with
      | none => Except.error "invalid timestamp format"
      | some timestamp => Except.ok (nonce, timestamp)
  | _ => Except.error "invalid response format"

/-- `receiveResponse` (server.go lines 204-218) on the received bytes:
trim surrounding white space, then `parseResponse`. -/
def receiveResponse (raw : String) : Except String (String × DateTime) :=
  parseResponse (trimSpace raw)

/-- `verifyPoW` (server.go lines 238-260) at wall-clock instant `nowNanos`:
reject when the client timestamp is older than `timeWindow`
(`time.Since(clientTimestamp) > s.config.TimeWindow`), otherwise hash
`challenge ++ nonce ++ serverTimestamp.Format(RFC3339Nano)` and require
`difficulty` leading '0' characters.  `none` models the `strings.Repeat`
panic on a negative difficulty. -/
def verifyPoW (challenge nonce : String)
    (clientTimestamp serverTimestamp : DateTime) (difficulty : Int)
    (nowNanos timeWindow : Int) : Option Bool :=
  if timeWindow < nowNanos - toEpochNanos clientTimestamp then some false
  else
    match stringsRepeat "0" difficulty with
    | none => none
    | some requiredPre =>
        some (strHasPre (sha256Hex (challenge ++ nonce ++
          formatRFC3339Nano serverTimestamp)) requiredPre)

/-- The difficulty check both endpoints apply to a hex digest
(`strings.HasPrefix(hashHex, strings.Repeat("0", difficulty))` at a
non-negative difficulty); `meetsDifficulty` is the spec's name for it. -/
def meetsDifficulty (hexDigest : String) (difficulty : Nat) : Bool :=
  strHasPre hexDigest (String.mk (List.replicate difficulty '0'))

/-- Count of leading '0' characters of a string. -/
def leadingZeroCount (s : String) : Nat :=
  (s.data.takeWhile (fun c => c == '0')).length

/-- The reward frame `sendQuote` writes (server.go lines 270-275). -/
def quoteMessage (quote : String) : String := "Quote:" ++ quote ++ "\n"

/-- The error frame `sendError` writes for a failed verification
(server.go lines 146 and 278-285). -/
def invalidPoWMessage : String := "Error:Invalid proof of work.\n"

/-- The verify-and-respond step of `handleConnection`
(server.go lines 138-148): the bytes written back to the client after the
solution is parsed.  `none` means no response frame is written. -/
def verifyAndRespond (challenge nonce : String)
    (clientTimestamp serverTimestamp : DateTime) (difficulty : Int)
    (nowNanos timeWindow : Int) (quote : String) : Option String :=
  match verifyPoW challenge nonce clientTimestamp serverTimestamp difficulty
      nowNanos timeWindow with
  | none => none
  | some true => some (quoteMessage quote)
  | some false => some invalidPoWMessage

/-- The per-session environment of `handleConnection`: the generated
challenge token, the server timestamp taken at issuance, the raw solution
bytes read from the client (`none`: the read failed), the wall-clock
instant at verification, the randomly selected quote, and the net change
other sessions made to the load counter between issuance and
verification. -/
structure SessionInput where
  challenge : String
  serverTs : DateTime
  responseRaw : Option String
  nowNanos : Int
  quote : String
  loadDelta : Int

/-- `handleConnection` (server.go lines 106-149) after the accept: the load
counter is incremented, the difficulty policy is evaluated once on the
incremented load, the challenge is sent, the solution is read and parsed,
and `verifyPoW` runs with the difficulty captured at issuance.  The load
counter may meanwhile have moved by `inp.loadDelta`; the code never reads
it again (`_loadAtVerify` is dead), which is exactly the invariant under
scrutiny.  The result is the response frame written, if any. -/
def handleConnection (minDifficulty maxDifficulty timeWindow : Int)
    (load0 : Int) (inp : SessionInput) : Option String :=
  let load1 := load0 + 1
  let difficulty := adjustDifficulty load1 minDifficulty maxDifficulty
  match inp.responseRaw with
  | none => none
  | some raw =>
      match receiveResponse raw with
      | Except.error _ => none
      | Except.ok (nonce, clientTs) =>
          let _loadAtVerify := load1 + inp.loadDelta
          verifyAndRespond inp.challenge nonce clientTs inp.serverTs
            difficulty inp.nowNanos timeWindow inp.quote

/-- The session pipeline with the difficulty held as an immutable value,
the shape the spec's invariant describes (difficulty fixed at issuance,
never re-derived from load). -/
def sessionFixedDifficulty (difficulty timeWindow : Int)
    (inp : SessionInput) : Option String :=
  match inp.responseRaw with
  | none => none
  | some raw =>
      match receiveResponse raw with
      | Except.error _ => none
      | Except.ok (nonce, clientTs) =>
          verifyAndRespond inp.challenge nonce clientTs inp.serverTs
            difficulty inp.nowNanos timeWindow inp.quote

/-! ## Client (`cmd/client/client.go`) -/

/-- `receiveChallenge` (client.go lines 94-122): trim the received bytes,
split on `;`, require exactly three fields, trim the `Challenge:`,
`Timestamp:` and `Difficulty:` labels, parse the timestamp and the
difficulty. -/
def receiveChallenge (raw : String) :
    Except String (String × DateTime × Int) :=
  let message := trimSpace raw
  match splitOnSemi message with
  | [p1, p2, p3] =>
      let challenge := strTrimPre p1 "Challenge:"
      let timestampStr := strTrimPre p2 "Timestamp:"
      let difficultyStr := strTrimPre p3 "Difficulty:"
      match parseRFC3339Nano timestampStr with
      | none => Except.error "invalid timestamp format"
      | some serverTimestamp =>
          match atoi difficultyStr with
          | none => Except.error "invalid difficulty value"
          | some difficulty =>
              Except.ok (challenge, serverTimestamp, difficulty)
  | _ => Except.error "invalid challenge format"

/-- The brute-force loop of `solvePoW` (client.go lines 129-145): starting
at `nonce`, test `challenge ++ <decimal nonce> ++ tsStr` against the
required prefix, incrementing by one.  Each iteration first polls the
cancellation signal: exhausted fuel models the context firing
(`ctx.Err()` returned, no nonce), hence `none`. -/
def solvePoWLoop (fuel : Nat) (challenge tsStr requiredPre : String)
    (nonce : Nat) : Option String :=
  match fuel with
  | 0 => none
  | f + 1 =>
      if strHasPre (sha256Hex (challenge ++ natRepr nonce ++ tsStr))
          requiredPre then some (natRepr nonce)
      else solvePoWLoop f challenge tsStr requiredPre (nonce + 1)

/-- `solvePoW` (client.go lines 125-146): build the required prefix
(`strings.Repeat("0", difficulty)` — the outer `none` models its panic on a
negative difficulty), then run the search from nonce 0.  The result is
`some (some n)` when a nonce is found, `some none` when cancellation fires
first.  No bound on the nonce is consulted: the configured `MaxNonce`
(config.go line 26) does not appear. -/
def solvePoW (fuel : Nat) (challenge : String) (serverTimestamp : DateTime)
    (difficulty : Int) : Option (Option String) :=
  match stringsRepeat "0" difficulty with
  | none => none
  | some requiredPre =>
      some (solvePoWLoop fuel challenge (formatRFC3339Nano serverTimestamp)
        requiredPre 0)

/-- The solution frame `sendResponse` writes (client.go lines 149-154):
`Nonce:<nonce>;Timestamp:<RFC3339Nano>\n`. -/
def sendResponseMessage (nonce : String) (timestamp : DateTime) : String :=
  "Nonce:" ++ nonce ++ ";Timestamp:" ++ formatRFC3339Nano timestamp ++ "\n"

/-- The Unix epoch as a `DateTime`, a convenient concrete instant. -/
def epochDateTime : DateTime := ⟨1970, 1, 1, 0, 0, 0, 0⟩

/-! ## Helper lemmas -/

theorem digitChar_isDigit {d : Nat} (h : d < 10) :
    (Nat.digitChar d).isDigit = true := by
  interval_cases d <;> decide

theorem digitChar_toNat {d : Nat} (h : d < 10) :
    (Nat.digitChar d).toNat - 48 = d := by
  interval_cases d <;> decide

theorem isDigit_ne_semi {c : Char} (h : c.isDigit = true) : c ≠ ';' := by
  intro hc
  subst hc
  exact absurd h (by decide)

theorem isDigit_not_space {c : Char} (h : c.isDigit = true) :
    isGoSpace c = false := by
  cases hc : isGoSpace c with
  | false => rfl
  | true =>
      exfalso
      have hmem : ((((c = ' ' ∨ c = '\t') ∨ c = '\n') ∨ c = '\x0b') ∨
          c = '\x0c') ∨ c = '\r' := by
        simpa [isGoSpace] using hc
      rcases hmem with ((((rfl | rfl) | rfl) | rfl) | rfl) | rfl <;>
        exact absurd h (by decide)

theorem isAlphanum_ne_semi {c : Char} (h : c.isAlphanum = true) : c ≠ ';' := by
  intro hc
  subst hc
  exact absurd h (by decide)

theorem isPrefixOf_append_self (p r : List Char) :
    p.isPrefixOf (p ++ r) = true := by
  induction p with
  | nil => simp [List.isPrefixOf]
  | cons c cs ih => simp [List.isPrefixOf, ih]

theorem strTrimPre_append (pre : String) (r : List Char) :
    strTrimPre (String.mk (pre.data ++ r)) pre = String.mk r := by
  unfold strTrimPre strHasPre
  rw [if_pos (isPrefixOf_append_self pre.data r)]
  simp [List.drop_left]

theorem replicate_isPrefixOf_iff (d : Nat) (l : List Char) :
    (List.replicate d '0').isPrefixOf l = true ↔
      l.take d = List.replicate d '0' := by
  induction d generalizing l with
  | zero => simp [List.isPrefixOf]
  | succ d ih =>
      cases l with
      | nil =>
          constructor
          · intro h
            exact absurd h (by simp [List.replicate_succ, List.isPrefixOf])
          · intro h
            have := congrArg List.length h
            simp at this
      | cons c cs =>
          rw [List.replicate_succ]
          simp only [List.isPrefixOf, List.take_succ_cons,
            Bool.and_eq_true, beq_iff_eq, List.cons.injEq]
          rw [ih cs]
          constructor
          · rintro ⟨h1, h2⟩
            exact ⟨h1.symm, h2⟩
          · rintro ⟨h1, h2⟩
            exact ⟨h1.symm, h2⟩

theorem take_replicate_iff_count (d : Nat) (l : List Char) :
    l.take d = List.replicate d '0' ↔
      d ≤ (l.takeWhile (fun c => c == '0')).length := by
  induction d generalizing l with
  | zero => simp
  | succ d ih =>
      cases l with
      | nil =>
          constructor
          · intro h
            have := congrArg List.length h
            simp at this
          · intro h
            simp [List.takeWhile] at h
      | cons c cs =>
          rw [List.replicate_succ]
          simp only [List.take_succ_cons, List.cons.injEq, List.takeWhile]
          by_cases hc : c = '0'
          · subst hc
            simp only [beq_self_eq_true, List.length_cons, true_and]
            rw [ih cs]
            omega
          · have hb : (c == '0') = false := by
              simp [hc]
            rw [hb]
            simp only [List.length_nil]
            constructor
            · rintro ⟨h1, -⟩
              exact absurd h1 hc
            · intro h
              omega

theorem splitOnChar_no_sep {sep : Char} {l : List Char}
    (h : ∀ c ∈ l, c ≠ sep) : splitOnChar sep l = [l] := by
  induction l with
  | nil => rfl
  | cons c rest ih =>
      unfold splitOnChar
      rw [if_neg (h c (by simp))]
      rw [ih (fun x hx => h x (by simp [hx]))]

theorem splitOnChar_append {sep : Char} {a : List Char} (r : List Char)
    (h : ∀ c ∈ a, c ≠ sep) :
    splitOnChar sep (a ++ sep :: r) = a :: splitOnChar sep r := by
  induction a with
  | nil => simp [splitOnChar]
  | cons c a' ih =>
      have hc : c ≠ sep := h c (by simp)
      have ih' := ih (fun x hx => h x (by simp [hx]))
      rw [List.cons_append]
      conv_lhs => rw [splitOnChar]
      rw [if_neg hc, ih']

theorem dropWhile_eq_self_of_head {p : Char → Bool} {l : List Char}
    (h : ∀ c, l.head? = some c → p c = false) : l.dropWhile p = l := by
  cases l with
  | nil => rfl
  | cons c cs => simp [List.dropWhile_cons, h c rfl]

theorem trimSpaceData_append_newline {l : List Char}
    (h1 : ∀ c, l.head? = some c → isGoSpace c = false)
    (h2 : ∀ c, l.getLast? = some c → isGoSpace c = false) :
    trimSpaceData (l ++ ['\n']) = l := by
  cases l with
  | nil => decide
  | cons c cs =>
      unfold trimSpaceData
      rw [List.cons_append, List.dropWhile_cons, h1 c rfl]
      simp only [Bool.false_eq_true, if_false]
      have hrev : (c :: (cs ++ ['\n'])).reverse =
          '\n' :: (c :: cs).reverse := by
        simp
      rw [hrev, List.dropWhile_cons, show isGoSpace '\n' = true by decide]
      simp only [if_true]
      rw [dropWhile_eq_self_of_head (fun x hx => by
        rw [List.head?_reverse] at hx
        exact h2 x hx)]
      simp

theorem takeWhile_all_append {p : Char → Bool} {l : List Char}
    (hl : ∀ c ∈ l, p c = true) {c0 : Char} (hc : p c0 = false)
    (r : List Char) : (l ++ c0 :: r).takeWhile p = l := by
  induction l with
  | nil => simp [List.takeWhile_cons, hc]
  | cons c cs ih =>
      have hx := ih (fun x hx => hl x (by simp [hx]))
      simp [List.cons_append, List.takeWhile_cons, hl c (by simp), hx]

theorem dropWhile_all_append {p : Char → Bool} {l : List Char}
    (hl : ∀ c ∈ l, p c = true) {c0 : Char} (hc : p c0 = false)
    (r : List Char) : (l ++ c0 :: r).dropWhile p = c0 :: r := by
  induction l with
  | nil => simp [List.dropWhile_cons, hc]
  | cons c cs ih =>
      have hx := ih (fun x hx => hl x (by simp [hx]))
      simp [List.cons_append, List.dropWhile_cons, hl c (by simp), hx]

theorem digitsToNat_append_single (l : List Char) (c : Char) :
    digitsToNat (l ++ [c]) = digitsToNat l * 10 + (c.toNat - 48) := by
  unfold digitsToNat
  rw [List.foldl_append]
  rfl

theorem digitsToNat_append_replicate (l : List Char) (k : Nat) :
    digitsToNat (l ++ List.replicate k '0') = digitsToNat l * 10 ^ k := by
  induction k generalizing l with
  | zero => simp
  | succ k ih =>
      rw [List.replicate_succ,
        show l ++ ('0' :: List.replicate k '0') =
          (l ++ ['0']) ++ List.replicate k '0' by simp,
        ih (l ++ ['0']), digitsToNat_append_single]
      have h0 : ('0'.toNat - 48) = 0 := rfl
      rw [h0]
      ring

theorem length_pad9 (n : Nat) : (pad9 n).length = 9 := by
  simp [pad9]

theorem digitsToNat_pad9 {n : Nat} (h : n < 1000000000) :
    digitsToNat (pad9 n) = n := by
  unfold pad9 digitsToNat
  simp only [List.foldl_cons, List.foldl_nil]
  rw [digitChar_toNat (show n / 100000000 < 10 by omega),
    digitChar_toNat (show n / 10000000 % 10 < 10 by omega),
    digitChar_toNat (show n / 1000000 % 10 < 10 by omega),
    digitChar_toNat (show n / 100000 % 10 < 10 by omega),
    digitChar_toNat (show n / 10000 % 10 < 10 by omega),
    digitChar_toNat (show n / 1000 % 10 < 10 by omega),
    digitChar_toNat (show n / 100 % 10 < 10 by omega),
    digitChar_toNat (show n / 10 % 10 < 10 by omega),
    digitChar_toNat (show n % 10 < 10 by omega)]
  omega

theorem mem_takeWhile_pred {p : Char → Bool} :
    ∀ {l : List Char} {c : Char}, c ∈ l.takeWhile p → p c = true := by
  intro l
  induction l with
  | nil => intro c hc; simp [List.takeWhile] at hc
  | cons x xs ih =>
      intro c hc
      rw [List.takeWhile_cons] at hc
      by_cases hx : p x = true
      · rw [hx] at hc
        simp only [if_true] at hc
        rcases List.mem_cons.mp hc with rfl | hc'
        · exact hx
        · exact ih hc'
      · rw [Bool.eq_false_iff.mpr hx] at hc
        simp at hc

theorem exists_stripTrailingZeros (l : List Char) :
    ∃ k, l = stripTrailingZeros l ++ List.replicate k '0' ∧
      (stripTrailingZeros l).length + k = l.length := by
  unfold stripTrailingZeros
  have hsplit : l.reverse.takeWhile (fun c => c == '0') ++
      l.reverse.dropWhile (fun c => c == '0') = l.reverse :=
    List.takeWhile_append_dropWhile _ _
  have hall : ∀ c ∈ l.reverse.takeWhile (fun c => c == '0'), c = '0' :=
    fun c hc => by simpa using mem_takeWhile_pred hc
  have hrep : l.reverse.takeWhile (fun c => c == '0') =
      List.replicate (l.reverse.takeWhile (fun c => c == '0')).length '0' :=
    List.eq_replicate_of_mem hall
  refine ⟨(l.reverse.takeWhile (fun c => c == '0')).length, ?_, ?_⟩
  · conv_lhs => rw [show l = l.reverse.reverse by simp, ← hsplit]
    rw [List.reverse_append]
    conv_lhs => rw [hrep, List.reverse_replicate]
  · have hlen := congrArg List.length hsplit
    simp only [List.length_append, List.length_reverse] at hlen
    simp only [List.length_reverse]
    omega

theorem mem_stripTrailingZeros {l : List Char} {c : Char}
    (h : c ∈ stripTrailingZeros l) : c ∈ l := by
  unfold stripTrailingZeros at h
  rw [List.mem_reverse] at h
  have hm := (List.dropWhile_sublist (l := l.reverse)
    (p := fun c => c == '0')).subset h
  rwa [List.mem_reverse] at hm

theorem pad9_mem_isDigit {n : Nat} (h : n < 1000000000) :
    ∀ c ∈ pad9 n, c.isDigit = true := by
  intro c hc
  unfold pad9 at hc
  simp only [List.mem_cons, List.not_mem_nil, or_false] at hc
  rcases hc with rfl | rfl | rfl | rfl | rfl | rfl | rfl | rfl | rfl <;>
    exact digitChar_isDigit (by omega)

theorem strip_pad9_ne_nil {n : Nat} (h0 : n ≠ 0) (h : n < 1000000000) :
    stripTrailingZeros (pad9 n) ≠ [] := by
  intro hnil
  obtain ⟨k, hk, -⟩ := exists_stripTrailingZeros (pad9 n)
  rw [hnil, List.nil_append] at hk
  have h2 := digitsToNat_append_replicate [] k
  rw [List.nil_append] at h2
  have hz : digitsToNat (pad9 n) = 0 := by
    rw [hk, h2]
    simp [digitsToNat]
  rw [digitsToNat_pad9 h] at hz
  exact h0 hz

theorem parseFracPart_dot (x : List Char) :
    parseFracPart ('.' :: x) =
      (if (x.takeWhile Char.isDigit).length = 0 then none
       else if 9 < (x.takeWhile Char.isDigit).length then none
       else some (digitsToNat (x.takeWhile Char.isDigit) *
         10 ^ (9 - (x.takeWhile Char.isDigit).length),
         x.dropWhile Char.isDigit)) := rfl

theorem parseFracPart_fracRepr {n : Nat} (h : n < 1000000000)
    (r : List Char) :
    parseFracPart (fracRepr n ++ 'Z' :: r) = some (n, 'Z' :: r) := by
  unfold fracRepr
  by_cases h0 : n = 0
  · subst h0
    simp [parseFracPart]
  · rw [if_neg h0]
    obtain ⟨k, hk, hlen⟩ := exists_stripTrailingZeros (pad9 n)
    have hdsd : ∀ c ∈ stripTrailingZeros (pad9 n), c.isDigit = true :=
      fun c hc => pad9_mem_isDigit h c (mem_stripTrailingZeros hc)
    have hne : stripTrailingZeros (pad9 n) ≠ [] := strip_pad9_ne_nil h0 h
    have hZ : Char.isDigit 'Z' = false := by decide
    rw [length_pad9] at hlen
    rw [List.cons_append, parseFracPart_dot,
      takeWhile_all_append hdsd hZ r, dropWhile_all_append hdsd hZ r]
    rw [if_neg (fun hc => hne (List.length_eq_zero.mp hc))]
    rw [if_neg (by omega)]
    have hval : digitsToNat (stripTrailingZeros (pad9 n)) * 10 ^ k = n := by
      rw [← digitsToNat_append_replicate, ← hk]
      exact digitsToNat_pad9 h
    rw [show 9 - (stripTrailingZeros (pad9 n)).length = k by omega, hval]

theorem expectCh_cons (c : Char) (r : List Char) :
    expectCh c (c :: r) = some r := by
  simp [expectCh]

theorem parse2_cons (c1 c2 : Char) (r : List Char) :
    parse2 (c1 :: c2 :: r) =
      (if c1.isDigit && c2.isDigit then
        some ((c1.toNat - 48) * 10 + (c2.toNat - 48), r)
      else none) := rfl

theorem parse2_pad2 {n : Nat} (h : n ≤ 99) (r : List Char) :
    parse2 (pad2 n ++ r) = some (n, r) := by
  show parse2 (Nat.digitChar (n / 10) :: Nat.digitChar (n % 10) :: r) = _
  rw [parse2_cons, digitChar_isDigit (show n / 10 < 10 by omega),
    digitChar_isDigit (show n % 10 < 10 by omega)]
  simp only [Bool.and_self, if_true]
  rw [digitChar_toNat (show n / 10 < 10 by omega),
    digitChar_toNat (show n % 10 < 10 by omega)]
  rw [show n / 10 * 10 + n % 10 = n by omega]

theorem parse4_cons (c1 c2 c3 c4 : Char) (r : List Char) :
    parse4 (c1 :: c2 :: c3 :: c4 :: r) =
      (if c1.isDigit && c2.isDigit && c3.isDigit && c4.isDigit then
        some ((c1.toNat - 48) * 1000 + (c2.toNat - 48) * 100 +
          (c3.toNat - 48) * 10 + (c4.toNat - 48), r)
      else none) := rfl

theorem parse4_pad4 {n : Nat} (h : n ≤ 9999) (r : List Char) :
    parse4 (pad4 n ++ r) = some (n, r) := by
  show parse4 (Nat.digitChar (n / 1000) :: Nat.digitChar (n / 100 % 10) ::
    Nat.digitChar (n / 10 % 10) :: Nat.digitChar (n % 10) :: r) = _
  rw [parse4_cons, digitChar_isDigit (show n / 1000 < 10 by omega),
    digitChar_isDigit (show n / 100 % 10 < 10 by omega),
    digitChar_isDigit (show n / 10 % 10 < 10 by omega),
    digitChar_isDigit (show n % 10 < 10 by omega)]
  simp only [Bool.and_self, if_true]
  rw [digitChar_toNat (show n / 1000 < 10 by omega),
    digitChar_toNat (show n / 100 % 10 < 10 by omega),
    digitChar_toNat (show n / 10 % 10 < 10 by omega),
    digitChar_toNat (show n % 10 < 10 by omega)]
  rw [show n / 1000 * 1000 + n / 100 % 10 * 100 + n / 10 % 10 * 10 + n % 10
    = n by omega]

theorem parseRFC3339Data_formatData {t : DateTime} (h : validDateTime t) :
    parseRFC3339Data (formatData t) = some t := by
  obtain ⟨h1, h2, h3, h4, h5, h6, h7, h8, h9⟩ := h
  unfold formatData parseRFC3339Data
  simp only [parse4_pad4 (show t.year ≤ 9999 by omega),
    expectCh_cons,
    parse2_pad2 (show t.month ≤ 99 by omega),
    parse2_pad2 (show t.day ≤ 99 by omega),
    parse2_pad2 (show t.hour ≤ 99 by omega),
    parse2_pad2 (show t.minute ≤ 99 by omega),
    parse2_pad2 (show t.second ≤ 99 by omega),
    parseFracPart_fracRepr h9]
  rw [if_pos ⟨h2, h3, h4, h5, h6, h7, h8⟩]

theorem natReprAux_spec : ∀ {fuel n : Nat}, n < fuel →
    (∀ c ∈ natReprAux fuel n, c.isDigit = true) ∧
      natReprAux fuel n ≠ [] ∧ digitsToNat (natReprAux fuel n) = n := by
  intro fuel
  induction fuel with
  | zero => intro n h; omega
  | succ fuel ih =>
      intro n h
      by_cases h10 : n < 10
      · rw [natReprAux, if_pos h10]
        refine ⟨?_, by simp, ?_⟩
        · intro c hc
          rw [List.mem_singleton] at hc
          subst hc
          exact digitChar_isDigit h10
        · show digitsToNat ([] ++ [Nat.digitChar n]) = n
          rw [digitsToNat_append_single]
          show 0 * 10 + ((Nat.digitChar n).toNat - 48) = n
          rw [digitChar_toNat h10]
          omega
      · obtain ⟨hd, hn, hv⟩ := ih (n := n / 10) (by omega)
        rw [natReprAux, if_neg h10]
        refine ⟨?_, by simp, ?_⟩
        · intro c hc
          rcases List.mem_append.mp hc with hc' | hc'
          · exact hd c hc'
          · rw [List.mem_singleton] at hc'
            subst hc'
            exact digitChar_isDigit (by omega)
        · rw [digitsToNat_append_single, hv,
            digitChar_toNat (show n % 10 < 10 by omega)]
          omega

theorem natReprData_spec (n : Nat) :
    (∀ c ∈ natReprData n, c.isDigit = true) ∧
      natReprData n ≠ [] ∧ digitsToNat (natReprData n) = n :=
  natReprAux_spec (by omega)

theorem natReprData_last (n : Nat) :
    ∃ ds c, natReprData n = ds ++ [c] ∧ c.isDigit = true := by
  unfold natReprData
  by_cases h10 : n < 10
  · refine ⟨[], Nat.digitChar n, ?_, digitChar_isDigit h10⟩
    rw [natReprAux, if_pos h10]
    simp
  · refine ⟨natReprAux n (n / 10), Nat.digitChar (n % 10), ?_,
      digitChar_isDigit (by omega)⟩
    rw [natReprAux, if_neg h10]

theorem parseDigitsOpt_natReprData (n : Nat) :
    parseDigitsOpt (natReprData n) = some n := by
  obtain ⟨hd, hn, hv⟩ := natReprData_spec n
  unfold parseDigitsOpt
  rw [if_pos ⟨hn, hd⟩, hv]

theorem atoiData_cons (c : Char) (cs : List Char) :
    atoiData (c :: cs) =
      (if c = '-' then (parseDigitsOpt cs).map (fun n => -(n : Int))
       else if c = '+' then (parseDigitsOpt cs).map (fun n => (n : Int))
       else (parseDigitsOpt (c :: cs)).map (fun n => (n : Int))) := rfl

theorem atoiData_intReprData (i : Int) : atoiData (intReprData i) = some i := by
  unfold intReprData
  by_cases hneg : i < 0
  · rw [if_pos hneg, atoiData_cons, if_pos rfl, parseDigitsOpt_natReprData]
    simp only [Option.map_some', Option.some.injEq, Option.map_eq_some',
      Option.bind_eq_bind, Option.some_bind, Option.bind_some,
      Option.pure_def]
    omega
  · rw [if_neg hneg]
    obtain ⟨c, cs, hshape⟩ := List.exists_cons_of_ne_nil
      (natReprData_spec i.toNat).2.1
    have hcd : c.isDigit = true :=
      (natReprData_spec i.toNat).1 c (by rw [hshape]; simp)
    have hcm : c ≠ '-' := by
      intro hc
      subst hc
      exact absurd hcd (by decide)
    have hcp : c ≠ '+' := by
      intro hc
      subst hc
      exact absurd hcd (by decide)
    rw [hshape, atoiData_cons, if_neg hcm, if_neg hcp, ← hshape,
      parseDigitsOpt_natReprData]
    simp only [Option.map_some', Option.some.injEq, Option.map_eq_some',
      Option.bind_eq_bind, Option.some_bind, Option.bind_some,
      Option.pure_def]
    omega

theorem pad2_mem_isDigit {n : Nat} (h : n ≤ 99) :
    ∀ c ∈ pad2 n, c.isDigit = true := by
  intro c hc
  unfold pad2 at hc
  simp only [List.mem_cons, List.not_mem_nil, or_false] at hc
  rcases hc with rfl | rfl <;> exact digitChar_isDigit (by omega)

theorem pad4_mem_isDigit {n : Nat} (h : n ≤ 9999) :
    ∀ c ∈ pad4 n, c.isDigit = true := by
  intro c hc
  unfold pad4 at hc
  simp only [List.mem_cons, List.not_mem_nil, or_false] at hc
  rcases hc with rfl | rfl | rfl | rfl <;> exact digitChar_isDigit (by omega)

theorem fracRepr_mem {n : Nat} (h : n < 1000000000) :
    ∀ c ∈ fracRepr n, c.isDigit = true ∨ c = '.' := by
  intro c hc
  unfold fracRepr at hc
  by_cases h0 : n = 0
  · rw [if_pos h0] at hc
    simp at hc
  · rw [if_neg h0] at hc
    rcases List.mem_cons.mp hc with rfl | hc'
    · exact Or.inr rfl
    · exact Or.inl (pad9_mem_isDigit h c (mem_stripTrailingZeros hc'))

theorem formatData_ne_semi {t : DateTime} (h : validDateTime t) :
    ∀ c ∈ formatData t, c ≠ ';' := by
  obtain ⟨h1, h2, h3, h4, h5, h6, h7, h8, h9⟩ := h
  intro c hc
  unfold formatData at hc
  simp only [List.mem_append, List.mem_cons, List.mem_singleton,
    List.not_mem_nil, or_false] at hc
  rcases hc with hp | rfl | hp | rfl | hp | rfl | hp | rfl | hp | rfl | hp |
      hf | rfl
  · exact isDigit_ne_semi (pad4_mem_isDigit (by omega) c hp)
  · decide
  · exact isDigit_ne_semi (pad2_mem_isDigit (by omega) c hp)
  · decide
  · exact isDigit_ne_semi (pad2_mem_isDigit (by omega) c hp)
  · decide
  · exact isDigit_ne_semi (pad2_mem_isDigit (by omega) c hp)
  · decide
  · exact isDigit_ne_semi (pad2_mem_isDigit (by omega) c hp)
  · decide
  · exact isDigit_ne_semi (pad2_mem_isDigit (by omega) c hp)
  · rcases fracRepr_mem h9 c hf with hd | rfl
    · exact isDigit_ne_semi hd
    · decide
  · decide

theorem intReprData_ne_semi (i : Int) : ∀ c ∈ intReprData i, c ≠ ';' := by
  intro c hc
  unfold intReprData at hc
  by_cases hneg : i < 0
  · rw [if_pos hneg] at hc
    rcases List.mem_cons.mp hc with rfl | hc'
    · decide
    · exact isDigit_ne_semi ((natReprData_spec i.natAbs).1 c hc')
  · rw [if_neg hneg] at hc
    exact isDigit_ne_semi ((natReprData_spec i.toNat).1 c hc)

theorem intReprData_last (i : Int) :
    ∃ ds c, intReprData i = ds ++ [c] ∧ c.isDigit = true := by
  unfold intReprData
  by_cases hneg : i < 0
  · obtain ⟨ds, c, hshape, hcd⟩ := natReprData_last i.natAbs
    refine ⟨'-' :: ds, c, ?_, hcd⟩
    rw [if_pos hneg, hshape]
    rfl
  · obtain ⟨ds, c, hshape, hcd⟩ := natReprData_last i.toNat
    refine ⟨ds, c, ?_, hcd⟩
    rw [if_neg hneg, hshape]

theorem flatten_replicate_singleton (d : Nat) (c : Char) :
    List.flatten (List.replicate d [c]) = List.replicate d c := by
  induction d with
  | zero => rfl
  | succ d ih => simp [List.replicate_succ, ih]

theorem stringsRepeat_zero_ofNat (d : Nat) :
    stringsRepeat "0" (d : Int) =
      some (String.mk (List.replicate d '0')) := by
  unfold stringsRepeat
  rw [if_neg (by omega : ¬ ((d : Int) < 0))]
  have hdata : ("0" : String).data = ['0'] := rfl
  rw [hdata, show ((d : Int)).toNat = d by omega,
    flatten_replicate_singleton]

theorem meetsDifficulty_iff_take (s : String) (d : Nat) :
    meetsDifficulty s d = true ↔ s.data.take d = List.replicate d '0' :=
  replicate_isPrefixOf_iff d s.data

theorem length_sha256Bytes (msg : List Nat) : (sha256Bytes msg).length = 32 := by
  unfold sha256Bytes wordBytesBE
  simp

theorem length_flatten_byteHexChars (l : List Nat) :
    (List.flatten (l.map byteHexChars)).length = 2 * l.length := by
  induction l with
  | nil => rfl
  | cons b bs ih =>
      simp only [List.map_cons, List.flatten_cons, List.length_append, ih,
        byteHexChars, List.length_cons, List.length_nil, List.length_cons]
      omega

theorem sha256Hex_length (s : String) : (sha256Hex s).data.length = 64 := by
  show (List.flatten ((sha256Bytes (utf8Bytes s)).map byteHexChars)).length = 64
  rw [length_flatten_byteHexChars, length_sha256Bytes]

theorem solvePoWLoop_finds (challenge tsStr reqPre : String) :
    ∀ (fuel start n : Nat), start ≤ n → n < start + fuel →
      strHasPre (sha256Hex (challenge ++ natRepr n ++ tsStr)) reqPre = true →
      (∀ m, start ≤ m → m < n →
        strHasPre (sha256Hex (challenge ++ natRepr m ++ tsStr)) reqPre
          = false) →
      solvePoWLoop fuel challenge tsStr reqPre start = some (natRepr n) := by
  intro fuel
  induction fuel with
  | zero => intro start n h1 h2 _ _; omega
  | succ fuel ih =>
      intro start n h1 h2 hn hmin
      show (if strHasPre (sha256Hex (challenge ++ natRepr start ++ tsStr))
          reqPre then some (natRepr start)
        else solvePoWLoop fuel challenge tsStr reqPre (start + 1)) = _
      by_cases hs : start = n
      · subst hs
        rw [if_pos hn]
      · have hfalse := hmin start (le_refl _) (by omega)
        rw [if_neg (by simp [hfalse])]
        exact ih (start + 1) n (by omega) (by omega) hn
          (fun m hm1 hm2 => hmin m (by omega) hm2)

/-- `verifyPoW` at a non-negative difficulty, reduced to its two checks. -/
theorem verifyPoW_reduce (challenge nonce : String) (ct st : DateTime)
    (d : Nat) (now tw : Int) :
    verifyPoW challenge nonce ct st (d : Int) now tw =
      (if tw < now - toEpochNanos ct then some false
       else some (strHasPre (sha256Hex (challenge ++ nonce ++
         formatRFC3339Nano st)) (String.mk (List.replicate d '0')))) := by
  unfold verifyPoW
  rw [stringsRepeat_zero_ofNat]

/-! ## The claims -/

/-- C1: for every session (at any non-negative difficulty `d`), verification
yields `Accepted` (`some true`) iff the lowercase-hex SHA-256 digest of
`challenge ++ nonce ++ serverTimestamp.Format(RFC3339Nano)` starts with `d`
literal '0' characters AND the submitted client timestamp is no older than
`TimeWindow` at verification time; if either condition alone fails the
result is `Rejected` (`some false`). -/
theorem verifyPoW_accepts_iff (challenge nonce : String)
    (clientTs serverTs : DateTime) (d : Nat) (now timeWindow : Int) :
    (verifyPoW challenge nonce clientTs serverTs (d : Int) now timeWindow
        = some true ↔
      ((sha256Hex (challenge ++ nonce ++
          formatRFC3339Nano serverTs)).data.take d = List.replicate d '0'
        ∧ now - toEpochNanos clientTs ≤ timeWindow))
    ∧ (verifyPoW challenge nonce clientTs serverTs (d : Int) now timeWindow
        = some false ↔
      ¬ (((sha256Hex (challenge ++ nonce ++
          formatRFC3339Nano serverTs)).data.take d = List.replicate d '0')
        ∧ now - toEpochNanos clientTs ≤ timeWindow)) := by
  have hdig := meetsDifficulty_iff_take
    (sha256Hex (challenge ++ nonce ++ formatRFC3339Nano serverTs)) d
  rw [verifyPoW_reduce]
  by_cases hfresh : timeWindow < now - toEpochNanos clientTs
  · rw [if_pos hfresh]
    constructor
    · constructor
      · intro h
        exact absurd h (by simp)
      · rintro ⟨-, hle⟩
        omega
    · constructor
      · rintro - ⟨-, hle⟩
        omega
      · intro _
        rfl
  · rw [if_neg hfresh]
    constructor
    · simp only [Option.some.injEq]
      constructor
      · intro hb
        exact ⟨hdig.mp hb, by omega⟩
      · rintro ⟨ht, -⟩
        exact hdig.mpr ht
    · simp only [Option.some.injEq]
      constructor
      · intro hb hcon
        have hb' : meetsDifficulty (sha256Hex (challenge ++ nonce ++
            formatRFC3339Nano serverTs)) d = false := hb
        have hm := hdig.mpr hcon.1
        rw [hm] at hb'
        exact absurd hb' (by simp)
      · intro hn
        cases hb : strHasPre (sha256Hex (challenge ++ nonce ++
            formatRFC3339Nano serverTs)) (String.mk (List.replicate d '0'))
        · rfl
        · exact absurd ⟨hdig.mp hb, by omega⟩ hn

/-- C2: for every hex digest string and every difficulty `d`, the difficulty
check passes iff the digest has `d` or more leading '0' characters,
equivalently iff the string starts with `d` literal '0' characters (proved
for all `d : Nat`, which covers the claimed range `[0, 64]`). -/
theorem meetsDifficulty_leading_zeros (s : String) (d : Nat) :
    (meetsDifficulty s d = true ↔ d ≤ leadingZeroCount s)
    ∧ (meetsDifficulty s d = true ↔
        s.data.take d = List.replicate d '0') := by
  constructor
  · rw [meetsDifficulty_iff_take s d]
    exact take_replicate_iff_count d s.data
  · exact meetsDifficulty_iff_take s d

/-- C3 counterexample: a solution frame with neither the `Nonce:` nor the
`Timestamp:` field label decodes successfully (to nonce `"42"`), so a wrong
or missing label is silently tolerated, contradicting the claim that it is
rejected. -/
theorem parseResponse_lenient_counterexample :
    parseResponse "42;2024-01-01T00:00:00Z" =
      Except.ok ("42", ⟨2024, 1, 1, 0, 0, 0, 0⟩) := rfl

/-- C3 amended: decoding a solution frame fails iff the frame does not have
exactly two semicolon-separated fields or the second field — after
stripping an optional `Timestamp:` label — fails to parse as an RFC3339
timestamp; the `Nonce:`/`Timestamp:` labels are stripped when present but
their absence (or any other label) is tolerated, the nonce being the first
field taken verbatim. -/
theorem parseResponse_decode_spec :
    (∀ (a b : List Char), ';' ∉ a → ';' ∉ b →
      parseResponse (String.mk (a ++ ';' :: b)) =
        (match parseRFC3339Nano (strTrimPre (String.mk b) "Timestamp:") with
         | some ts => Except.ok (strTrimPre (String.mk a) "Nonce:", ts)
         | none => Except.error "invalid timestamp format"))
    ∧ (∀ s : String, (splitOnChar ';' s.data).length ≠ 2 →
        parseResponse s = Except.error "invalid response format") := by
  constructor
  · intro a b ha hb
    have ha' : ∀ c ∈ a, c ≠ ';' := fun c hc he => ha (he ▸ hc)
    have hb' : ∀ c ∈ b, c ≠ ';' := fun c hc he => hb (he ▸ hc)
    unfold parseResponse splitOnSemi
    rw [show (String.mk (a ++ ';' :: b)).data = a ++ ';' :: b from rfl,
      splitOnChar_append b ha', splitOnChar_no_sep hb']
    simp only [List.map_cons, List.map_nil]
    cases parseRFC3339Nano (strTrimPre (String.mk b) "Timestamp:") <;> rfl
  · intro s hlen
    unfold parseResponse splitOnSemi
    generalize hL : splitOnChar ';' s.data = L at hlen ⊢
    rcases L with - | ⟨x, - | ⟨y, - | ⟨z, rest⟩⟩⟩
    · rfl
    · rfl
    · simp at hlen
    · rfl

/-- C3 amended, instantiated: a two-field frame with bare (label-free)
fields `x;y` fails only because `y` is not a timestamp, and a one-field
frame fails on the field count. -/
theorem parseResponse_decode_spec_witness :
    parseResponse (String.mk ['x', ';', 'y']) =
        Except.error "invalid timestamp format"
      ∧ parseResponse "q" = Except.error "invalid response format" := by
  constructor
  · have h := parseResponse_decode_spec.1 ['x'] ['y'] (by decide) (by decide)
    rw [show parseRFC3339Nano (strTrimPre (String.mk ['y']) "Timestamp:")
      = none from rfl] at h
    exact h
  · exact parseResponse_decode_spec.2 "q" (by decide)

/-- C4: the difficulty assigned at issuance is a deterministic three-tier
step function of the load counter: load above 50 gives `maxDifficulty`,
load in (20, 50] gives `maxDifficulty - 1`, load at most 20 gives
`minDifficulty`; the boundary loads 50 and 20 fall in the lower tier. -/
theorem adjustDifficulty_step (load mn mx : Int) :
    (50 < load → adjustDifficulty load mn mx = mx)
    ∧ (20 < load ∧ load ≤ 50 → adjustDifficulty load mn mx = mx - 1)
    ∧ (load ≤ 20 → adjustDifficulty load mn mx = mn)
    ∧ adjustDifficulty 50 mn mx = mx - 1
    ∧ adjustDifficulty 20 mn mx = mn := by
  unfold adjustDifficulty maxDifficultyClientCount minDifficultyClientCount
  refine ⟨fun h => by rw [if_pos h],
    fun h => by rw [if_neg (by omega), if_pos (by omega)],
    fun h => by rw [if_neg (by omega), if_neg (by omega)],
    by norm_num, by norm_num⟩

/-- C4 at concrete loads: 51 is the top tier, 30 the middle, 0 the
bottom. -/
theorem adjustDifficulty_step_witness :
    adjustDifficulty 51 1 4 = 4 ∧ adjustDifficulty 30 1 4 = 3 ∧
      adjustDifficulty 0 1 4 = 1 := by
  refine ⟨(adjustDifficulty_step 51 1 4).1 (by norm_num), ?_,
    (adjustDifficulty_step 0 1 4).2.2.1 (by norm_num)⟩
  have h := (adjustDifficulty_step 30 1 4).2.1 ⟨by norm_num, by norm_num⟩
  norm_num at h
  exact h

/-- `receiveChallenge` with its let bindings inlined. -/
theorem receiveChallenge_eq (raw : String) :
    receiveChallenge raw =
      (match splitOnSemi (trimSpace raw) with
       | [p1, p2, p3] =>
          (match parseRFC3339Nano (strTrimPre p2 "Timestamp:") with
           | none => Except.error "invalid timestamp format"
           | some serverTimestamp =>
              match atoi (strTrimPre p3 "Difficulty:") with
              | none => Except.error "invalid difficulty value"
              | some difficulty =>
                  Except.ok (strTrimPre p1 "Challenge:", serverTimestamp,
                    difficulty))
       | _ => Except.error "invalid challenge format") := rfl

/-- C5: encoding a challenge (alphanumeric token, well-formed UTC
timestamp, any integer difficulty) as a challenge wire frame and decoding
that frame recovers the original field for field. -/
theorem challenge_roundtrip (token : String)
    (htok : ∀ c ∈ token.data, c.isAlphanum = true)
    (t : DateTime) (hv : validDateTime t) (d : Int) :
    receiveChallenge (sendChallengeMessage token t d) =
      Except.ok (token, t, d) := by
  obtain ⟨ds, cz, hds, hczd⟩ := intReprData_last d
  have hA : sendChallengeData token t d =
      ("Challenge:".data ++ token.data ++ ';' :: ("Timestamp:".data ++
        formatData t ++ ';' :: ("Difficulty:".data ++ intReprData d)))
        ++ ['\n'] := by
    unfold sendChallengeData
    simp [List.append_assoc]
  have htrim : trimSpace (sendChallengeMessage token t d) =
      String.mk ("Challenge:".data ++ token.data ++ ';' ::
        ("Timestamp:".data ++ formatData t ++ ';' ::
          ("Difficulty:".data ++ intReprData d))) := by
    unfold trimSpace sendChallengeMessage
    rw [show (String.mk (sendChallengeData token t d)).data =
      sendChallengeData token t d from rfl, hA]
    congr 1
    apply trimSpaceData_append_newline
    · intro c hc
      rw [show (("Challenge:".data ++ token.data ++ ';' ::
        ("Timestamp:".data ++ formatData t ++ ';' ::
          ("Difficulty:".data ++ intReprData d)))).head? = some 'C'
        from rfl] at hc
      simp only [Option.some.injEq] at hc
      subst hc
      decide
    · intro c hc
      have hA2 : "Challenge:".data ++ token.data ++ ';' ::
          ("Timestamp:".data ++ formatData t ++ ';' ::
            ("Difficulty:".data ++ intReprData d)) =
          ("Challenge:".data ++ token.data ++ ';' ::
            ("Timestamp:".data ++ formatData t ++ ';' ::
              ("Difficulty:".data ++ ds))) ++ [cz] := by
        rw [hds]
        simp [List.append_assoc]
      rw [hA2, List.getLast?_concat] at hc
      simp only [Option.some.injEq] at hc
      subst hc
      exact isDigit_not_space hczd
  have hlit1 : ∀ c ∈ "Challenge:".data, c ≠ ';' := by decide
  have hlit2 : ∀ c ∈ "Timestamp:".data, c ≠ ';' := by decide
  have hlit3 : ∀ c ∈ "Difficulty:".data, c ≠ ';' := by decide
  have hP1 : ∀ c ∈ "Challenge:".data ++ token.data, c ≠ ';' := by
    intro c hc
    rcases List.mem_append.mp hc with h | h
    · exact hlit1 c h
    · exact isAlphanum_ne_semi (htok c h)
  have hP2 : ∀ c ∈ "Timestamp:".data ++ formatData t, c ≠ ';' := by
    intro c hc
    rcases List.mem_append.mp hc with h | h
    · exact hlit2 c h
    · exact formatData_ne_semi hv c h
  have hP3 : ∀ c ∈ "Difficulty:".data ++ intReprData d, c ≠ ';' := by
    intro c hc
    rcases List.mem_append.mp hc with h | h
    · exact hlit3 c h
    · exact intReprData_ne_semi d c h
  rw [receiveChallenge_eq, htrim]
  unfold splitOnSemi
  rw [show (String.mk ("Challenge:".data ++ token.data ++ ';' ::
      ("Timestamp:".data ++ formatData t ++ ';' ::
        ("Difficulty:".data ++ intReprData d)))).data =
      ("Challenge:".data ++ token.data) ++ ';' ::
        (("Timestamp:".data ++ formatData t) ++ ';' ::
          ("Difficulty:".data ++ intReprData d)) from rfl,
    splitOnChar_append _ hP1, splitOnChar_append _ hP2,
    splitOnChar_no_sep hP3]
  simp only [List.map_cons, List.map_nil]
  show (match parseRFC3339Nano (strTrimPre
      (String.mk ("Timestamp:".data ++ formatData t)) "Timestamp:") with
    | none => Except.error "invalid timestamp format"
    | some serverTimestamp =>
        match atoi (strTrimPre
            (String.mk ("Difficulty:".data ++ intReprData d))
            "Difficulty:") with
        | none => Except.error "invalid difficulty value"
        | some difficulty =>
            Except.ok (strTrimPre
              (String.mk ("Challenge:".data ++ token.data)) "Challenge:",
              serverTimestamp, difficulty)) = Except.ok (token, t, d)
  rw [strTrimPre_append "Timestamp:" (formatData t),
    show parseRFC3339Nano (String.mk (formatData t)) =
      parseRFC3339Data (formatData t) from rfl,
    parseRFC3339Data_formatData hv,
    strTrimPre_append "Difficulty:" (intReprData d),
    show atoi (String.mk (intReprData d)) = atoiData (intReprData d)
      from rfl,
    atoiData_intReprData,
    strTrimPre_append "Challenge:" token.data]

/-- C5 at a concrete challenge: token `"abc"`, timestamp
2024-01-02T03:04:05.000000006Z, difficulty 3. -/
theorem challenge_roundtrip_witness :
    receiveChallenge (sendChallengeMessage "abc" ⟨2024, 1, 2, 3, 4, 5, 6⟩ 3)
      = Except.ok ("abc", ⟨2024, 1, 2, 3, 4, 5, 6⟩, 3) :=
  challenge_roundtrip "abc" (by decide) ⟨2024, 1, 2, 3, 4, 5, 6⟩ (by decide)
    3

/-- C6: given a challenge, server timestamp, and a non-negative difficulty
for which a qualifying nonce exists, and when cancellation does not fire
first (enough fuel), the solver examines nonces 0, 1, 2, ... in order and
returns the decimal string of the smallest qualifying nonce; the search
consults no upper bound on the nonce — the configured max-nonce value is
not an input of `solvePoW` at all, so the result holds however large the
least qualifying nonce is. -/
theorem solvePoW_finds_least (fuel : Nat) (challenge : String)
    (st : DateTime) (d : Nat) (n : Nat)
    (hfind : meetsDifficulty (sha256Hex (challenge ++ natRepr n ++
      formatRFC3339Nano st)) d = true)
    (hleast : ∀ m, m < n → meetsDifficulty (sha256Hex (challenge ++
      natRepr m ++ formatRFC3339Nano st)) d = false)
    (hfuel : n < fuel) :
    solvePoW fuel challenge st (d : Int) = some (some (natRepr n)) := by
  unfold solvePoW
  rw [stringsRepeat_zero_ofNat]
  show some (solvePoWLoop fuel challenge (formatRFC3339Nano st)
    (String.mk (List.replicate d '0')) 0) = _
  congr 1
  exact solvePoWLoop_finds challenge (formatRFC3339Nano st) _ fuel 0 n
    (by omega) (by omega) hfind (fun m _ hm => hleast m hm)

/-- C6 at difficulty 0 (every digest qualifies): the solver returns nonce
0 with one unit of fuel. -/
theorem solvePoW_finds_least_witness :
    solvePoW 1 "a" epochDateTime (0 : Int) = some (some (natRepr 0)) :=
  solvePoW_finds_least 1 "a" epochDateTime 0 0
    (by simp [meetsDifficulty, strHasPre, List.isPrefixOf])
    (fun m hm => absurd hm (by omega)) (by omega)

/-- C7: any rejection failing only the freshness check and any rejection
failing only the digest check produce byte-identical server responses —
the single generic invalid-proof error line — so the client cannot tell
which condition caused the rejection. -/
theorem rejection_responses_identical
    (c1 n1 : String) (ct1 st1 : DateTime) (d1 : Nat) (now1 tw1 : Int)
    (q1 : String) (c2 n2 : String) (ct2 st2 : DateTime) (d2 : Nat)
    (now2 tw2 : Int) (q2 : String)
    (hfresh1 : tw1 < now1 - toEpochNanos ct1)
    (hdig1 : (sha256Hex (c1 ++ n1 ++ formatRFC3339Nano st1)).data.take d1 =
      List.replicate d1 '0')
    (hfresh2 : now2 - toEpochNanos ct2 ≤ tw2)
    (hdig2 : ¬ (sha256Hex (c2 ++ n2 ++ formatRFC3339Nano st2)).data.take d2
      = List.replicate d2 '0') :
    verifyAndRespond c1 n1 ct1 st1 (d1 : Int) now1 tw1 q1 =
        verifyAndRespond c2 n2 ct2 st2 (d2 : Int) now2 tw2 q2
      ∧ verifyAndRespond c1 n1 ct1 st1 (d1 : Int) now1 tw1 q1 =
        some invalidPoWMessage := by
  have h1 : verifyPoW c1 n1 ct1 st1 (d1 : Int) now1 tw1 = some false := by
    rw [verifyPoW_reduce, if_pos hfresh1]
  have h2 : verifyPoW c2 n2 ct2 st2 (d2 : Int) now2 tw2 = some false := by
    rw [verifyPoW_reduce, if_neg (by omega)]
    cases hb : strHasPre (sha256Hex (c2 ++ n2 ++ formatRFC3339Nano st2))
        (String.mk (List.replicate d2 '0'))
    · rfl
    · exact absurd ((meetsDifficulty_iff_take _ d2).mp hb) hdig2
  unfold verifyAndRespond
  rw [h1, h2]
  exact ⟨rfl, rfl⟩

/-- C7 at concrete inputs: an expired solution whose digest check would
pass (difficulty 0) and a fresh solution whose digest check fails
(difficulty 65 exceeds the 64 hex characters) produce the same error
line. -/
theorem rejection_responses_identical_witness :
    verifyAndRespond "a" "b" epochDateTime epochDateTime (0 : Int) 1 0 "w" =
        verifyAndRespond "c" "d" epochDateTime epochDateTime (65 : Int) 0 0
          "x"
      ∧ verifyAndRespond "a" "b" epochDateTime epochDateTime (0 : Int) 1 0
          "w" = some invalidPoWMessage :=
  rejection_responses_identical "a" "b" epochDateTime epochDateTime 0 1 0
    "w" "c" "d" epochDateTime epochDateTime 65 0 0 "x"
    (by decide) rfl (by decide)
    (fun h => by
      have hlen := congrArg List.length h
      rw [List.length_take, List.length_replicate, sha256Hex_length] at hlen
      omega)

/-- C8: the difficulty a session verifies with is exactly the value the
difficulty policy produced from the load counter at challenge issuance
(the counter incremented on session start), and the session's entire
response is invariant under any change `δ` other sessions make to the
load counter before verification: difficulty is never re-derived from
load. -/
theorem session_difficulty_fixed_at_issuance (mn mx tw load0 : Int)
    (challenge : String) (st : DateTime) (raw : Option String) (now : Int)
    (quote : String) (δ δ' : Int) :
    handleConnection mn mx tw load0 ⟨challenge, st, raw, now, quote, δ⟩ =
        sessionFixedDifficulty (adjustDifficulty (load0 + 1) mn mx) tw
          ⟨challenge, st, raw, now, quote, δ⟩
      ∧ handleConnection mn mx tw load0 ⟨challenge, st, raw, now, quote, δ⟩
        = handleConnection mn mx tw load0
            ⟨challenge, st, raw, now, quote, δ'⟩ :=
  ⟨rfl, rfl⟩

/-- C9: a well-formed challenge frame carrying `Difficulty:-1` is accepted
by the client's challenge decoder, and the solver then panics
(`strings.Repeat` with a negative count, modelled by `none`) instead of
returning an error outcome. -/
theorem negative_difficulty_accepted_then_panics :
    receiveChallenge
        "Challenge:abc;Timestamp:2024-01-01T00:00:00Z;Difficulty:-1" =
      Except.ok ("abc", ⟨2024, 1, 1, 0, 0, 0, 0⟩, -1)
    ∧ solvePoW 5 "abc" ⟨2024, 1, 1, 0, 0, 0, 0⟩ (-1) = none :=
  ⟨rfl, rfl⟩

/-- C10: for every solution whose submitted timestamp lies at or after the
verification instant (arbitrarily far in the future), the freshness check
passes — with a non-negative `TimeWindow`, `verifyPoW` reduces to the
digest check alone, so only age in the past is bounded. -/
theorem future_timestamp_passes_freshness (challenge nonce : String)
    (ct st : DateTime) (d : Int) (now tw : Int)
    (htw : 0 ≤ tw) (hfut : now ≤ toEpochNanos ct) :
    verifyPoW challenge nonce ct st d now tw =
      Option.map (fun requiredPre => strHasPre (sha256Hex (challenge ++
        nonce ++ formatRFC3339Nano st)) requiredPre)
        (stringsRepeat "0" d) := by
  unfold verifyPoW
  rw [if_neg (by omega)]
  cases stringsRepeat "0" d <;> rfl

/-- C10 at a concrete future timestamp: a client timestamp in 2024
checked at instant 0 (1970) with a zero window and difficulty 0 is
accepted. -/
theorem future_timestamp_passes_freshness_witness :
    verifyPoW "a" "b" ⟨2024, 1, 1, 0, 0, 0, 0⟩ epochDateTime 0 0 0 =
      some true := by
  have h := future_timestamp_passes_freshness "a" "b"
    ⟨2024, 1, 1, 0, 0, 0, 0⟩ epochDateTime 0 0 0 (by omega) (by decide)
  rw [h, show stringsRepeat "0" 0 = some (String.mk []) from rfl]
  simp [strHasPre, List.isPrefixOf]
